import Mathlib

/-!
Shallow embedding of `src/server.js`, a two-party WebRTC rendezvous and
signaling-relay server.  The registry `rooms` (a JS `Map` from room code to
room object) is modelled as an association list, connections (`ws` objects)
are identified by a natural-number id (object identity `ws === other` becomes
id equality, faithful because every connection object carries a unique id),
and each handler becomes a pure function from server state to server state
plus the ordered list of messages sent, tagged with their recipient.
-/

/-- Connection identifier, modelling `ws.id` / object identity of a `ws`. -/
abbrev ConnId := Nat

/-- Per-connection mutable fields: `ws.roomCode`, `ws.role`, and whether
`ws.readyState === WebSocket.OPEN`. -/
structure Conn where
  roomCode : Option String
  role : Option String
  ready : Bool
deriving DecidableEq

/-- A room object `{ host: ws, peer: ws|null, users: Set }` (server.js 84-88).
`host` is assigned at creation and never reassigned or nulled. `users` is a
set of connection ids; it is modelled as a list with set-like insert/delete. -/
structure Room where
  host : ConnId
  peer : Option ConnId
  users : List ConnId
deriving DecidableEq

/-- `rooms.get(code)`: value at the first matching key. -/
def mapGet : List (String × Room) → String → Option Room
  | [], _ => none
  | (k, v) :: rest, code => if k = code then some v else mapGet rest code

/-- `rooms.set(code, room)`: replace the entry in place when the key exists,
append otherwise (JS `Map` insertion-order semantics). -/
def mapSet : List (String × Room) → String → Room → List (String × Room)
  | [], code, r => [(code, r)]
  | (k, v) :: rest, code, r =>
      if k = code then (code, r) :: rest else (k, v) :: mapSet rest code r

/-- `rooms.delete(code)`. -/
def mapDel (m : List (String × Room)) (code : String) : List (String × Room) :=
  m.filter (fun e => e.1 ≠ code)

/-- `rooms.has(code)`. -/
def mapHas (m : List (String × Room)) (code : String) : Bool :=
  (mapGet m code).isSome

/-- A signaling message subject to relaying (`offer` / `answer` /
`ice-candidate`): its `type`, the rest of its JSON payload kept opaque, and
the optional `senderRole` field, which the server assigns before forwarding
(server.js line 157). -/
structure RelayMsg where
  ty : String
  body : String
  senderRole : Option String
deriving DecidableEq

/-- Messages the server sends to clients.  Constant payload fields that the
code hardcodes (`role:'host'` in `room-created` and `peer-joined`,
`role:'peer'` in `room-joined`, the `host-left` text) are folded into the
constructor; `peer-left` carries the `role` field the code reads from the
recipient connection (server.js line 178). -/
inductive SMsg where
  | roomCreated (code : String)
  | roomJoined (code : String)
  | errorMsg (text : String)
  | peerJoined
  | peerLeft (role : Option String)
  | hostLeft
  | relay (m : RelayMsg)
deriving DecidableEq

/-- The whole server state: the `rooms` registry and every connection's
fields. -/
structure ServerState where
  rooms : List (String × Room)
  conns : ConnId → Conn

/-- Pointwise update of the connection table. -/
def setConn (f : ConnId → Conn) (c : ConnId) (v : Conn) : ConnId → Conn :=
  fun x => if x = c then v else f x

/-- `toUpperCase`, spelled out over the character list (so that it computes
by kernel reduction). -/
def upperStr (s : String) : String :=
  String.mk (s.data.map Char.toUpper)

/-- `generateRoomCode` (server.js 21-23):
`Math.random().toString(36).substring(2, 8).toUpperCase()`.  The random
base-36 fragment is modelled as an input string drawn from an external
supply; the function's own contribution is the uppercasing. -/
def generateRoomCode (raw : String) : String :=
  upperStr raw

/-- The `do { roomCode = generateRoomCode() } while (rooms.has(roomCode))`
loop (server.js 78-81): first generated code not already in the registry;
`none` models exhausting the given finite supply of random draws. -/
def freshCode (rooms : List (String × Room)) : List String → Option String
  | [] => none
  | raw :: rest =>
      let code := generateRoomCode raw
      if mapHas rooms code then freshCode rooms rest else some code

/-- `handleCreateRoom` (server.js 76-101). -/
def handleCreateRoom (s : ServerState) (c : ConnId) (supply : List String) :
    Option (ServerState × List (ConnId × SMsg)) :=
  match freshCode s.rooms supply with
  | none => none
  | some code =>
      some ({ rooms := mapSet s.rooms code { host := c, peer := none, users := [c] },
              conns := setConn s.conns c
                { s.conns c with roomCode := some code, role := some "host" } },
            [(c, SMsg.roomCreated code)])

/-- `room.users.add(id)`: set-like insert, JS `Set` keeps insertion order. -/
def insertUser (u : ConnId) (users : List ConnId) : List ConnId :=
  if u ∈ users then users else users ++ [u]

/-- `handleJoinRoom` (server.js 104-145). -/
def handleJoinRoom (s : ServerState) (c : ConnId) (roomCode : String) :
    ServerState × List (ConnId × SMsg) :=
  match mapGet s.rooms roomCode with
  | none => (s, [(c, SMsg.errorMsg "Room not found")])
  | some room =>
      match room.peer with
      | some _ => (s, [(c, SMsg.errorMsg "Room is full")])
      | none =>
          ({ rooms := mapSet s.rooms roomCode
               { room with peer := some c, users := insertUser c room.users },
             conns := setConn s.conns c
               { s.conns c with roomCode := some roomCode, role := some "peer" } },
           (c, SMsg.roomJoined roomCode) ::
             (if (s.conns room.host).ready then [(room.host, SMsg.peerJoined)] else []))

/-- `forwardToPeer` (server.js 148-161). -/
def forwardToPeer (s : ServerState) (c : ConnId) (m : RelayMsg) :
    ServerState × List (ConnId × SMsg) :=
  match (s.conns c).roomCode with
  | none => (s, [])
  | some code =>
      match mapGet s.rooms code with
      | none => (s, [])
      | some room =>
          match (if c = room.host then room.peer else some room.host : Option ConnId) with
          | none => (s, [])
          | some t =>
              if (s.conns t).ready then
                (s, [(t, SMsg.relay { m with senderRole := (s.conns c).role })])
              else (s, [])

/-- Clearing `ws.roomCode` and `ws.role` (server.js 202-203). -/
def clearAffil (cn : Conn) : Conn :=
  { cn with roomCode := none, role := none }

/-- `room.users.delete(ws.id)` (server.js 171), the in-place removal of the
departing connection from the room's member set. -/
def removeUser (c : ConnId) (r : Room) : Room :=
  { r with users := r.users.filter (fun u => u ≠ c) }

/-- The unconditional "notify the other peer" block of server.js 173-180:
the departing connection's counterpart (`peer` when the host departs, `host`
otherwise) receives `peer-left` carrying the recipient's own `role` field,
if it is still open. -/
def leaveNotice (s : ServerState) (c : ConnId) (room : Room) : List (ConnId × SMsg) :=
  match (if c = room.host then room.peer else some room.host : Option ConnId) with
  | some t => if (s.conns t).ready then [(t, SMsg.peerLeft ((s.conns t).role))] else []
  | none => []

/-- The `host-left` message of server.js 188-193, sent to the room's peer if
one is attached and open. -/
def hostLeftNotice (s : ServerState) (r : Room) : List (ConnId × SMsg) :=
  match r.peer with
  | some p => if (s.conns p).ready then [(p, SMsg.hostLeft)] else []
  | none => []

/-- `handleLeaveRoom` (server.js 164-204).  The in-place mutation
`room.users.delete(ws.id)` happens before branch dispatch, so every branch
that keeps the room stores the filtered member set (`removeUser c room`). -/
def handleLeaveRoom (s : ServerState) (c : ConnId) : ServerState × List (ConnId × SMsg) :=
  match (s.conns c).roomCode with
  | none => (s, [])
  | some code =>
      match mapGet s.rooms code with
      | none => (s, [])
      | some room =>
          if (removeUser c room).users.length = 0 then
            ({ rooms := mapDel s.rooms code,
               conns := setConn s.conns c (clearAffil (s.conns c)) },
             leaveNotice s c room)
          else if c = room.host then
            ({ rooms := mapDel s.rooms code,
               conns := setConn s.conns c (clearAffil (s.conns c)) },
             leaveNotice s c room ++ hostLeftNotice s (removeUser c room))
          else if (removeUser c room).peer = some c then
            ({ rooms := mapSet s.rooms code { removeUser c room with peer := none },
               conns := setConn s.conns c (clearAffil (s.conns c)) },
             leaveNotice s c room)
          else
            ({ rooms := mapSet s.rooms code (removeUser c room),
               conns := setConn s.conns c (clearAffil (s.conns c)) },
             leaveNotice s c room)

/-- An inbound client message after JSON parsing: the `type` tag and the
fields the handlers read (`roomCode` for join, the opaque payload and an
optional pre-existing `senderRole` for relay messages). -/
structure InMsg where
  ty : String
  roomCode : String
  body : String
  senderRole : Option String
deriving DecidableEq

/-- The per-message dispatcher (server.js 35-66).  `raw = none` models a
payload on which `JSON.parse` throws: the exception is caught, logged and the
message dropped.  The overall `none` result occurs only for `create-room`
with the code supply exhausted (the JS loop would keep drawing). -/
def handleMessage (s : ServerState) (c : ConnId) (raw : Option InMsg) (supply : List String) :
    Option (ServerState × List (ConnId × SMsg)) :=
  match raw with
  | none => some (s, [])
  | some m =>
      if m.ty = "create-room" then handleCreateRoom s c supply
      else if m.ty = "join-room" then some (handleJoinRoom s c m.roomCode)
      else if m.ty = "offer" ∨ m.ty = "answer" ∨ m.ty = "ice-candidate" then
        some (forwardToPeer s c { ty := m.ty, body := m.body, senderRole := m.senderRole })
      else if m.ty = "leave-room" then some (handleLeaveRoom s c)
      else some (s, [])

/-- External events driving the server: an inbound message from a connection
(with the random-code supply made explicit) or a transport-level disconnect,
which the server treats as a leave (server.js 69-72) after the socket has
left the OPEN state. -/
inductive Event where
  | msg (c : ConnId) (raw : Option InMsg) (supply : List String)
  | disconnect (c : ConnId)

/-- One server step.  Message events only arrive from open connections;
`none` means the event cannot fire (closed connection, or create with the
supply exhausted). -/
def stepEv (s : ServerState) : Event → Option (ServerState × List (ConnId × SMsg))
  | Event.msg c raw supply =>
      if (s.conns c).ready then handleMessage s c raw supply else none
  | Event.disconnect c =>
      if (s.conns c).ready then
        some (handleLeaveRoom
          { s with conns := setConn s.conns c { s.conns c with ready := false } } c)
      else none

/-- Initial server state: empty registry; every connection starts with the
fields `ws.roomCode = null`, `ws.role = null` assigned at connect time
(server.js 31-32) and its socket open. -/
def initState : ServerState :=
  { rooms := [], conns := fun _ => { roomCode := none, role := none, ready := true } }

/-- States reachable by any sequence of events from the initial state. -/
inductive Reachable : ServerState → Prop where
  | init : Reachable initState
  | step {s s1 : ServerState} {e : Event} {out : List (ConnId × SMsg)} :
      Reachable s → stepEv s e = some (s1, out) → Reachable s1

/-- The client discipline prescribed by the spec's per-connection state
machine (section 4.2): `create-room` and `join-room` are only issued by
unaffiliated connections. -/
def LegalEv (s : ServerState) : Event → Prop
  | Event.msg c (some m) _ =>
      (m.ty = "create-room" ∨ m.ty = "join-room") → (s.conns c).roomCode = none
  | _ => True

/-- States reachable when clients follow the spec's state-machine
discipline. -/
inductive LReachable : ServerState → Prop where
  | init : LReachable initState
  | step {s s1 : ServerState} {e : Event} {out : List (ConnId × SMsg)} :
      LReachable s → LegalEv s e → stepEv s e = some (s1, out) → LReachable s1

/-- The state after an event, for building concrete scenarios. -/
def afterEv (s : ServerState) (e : Event) : ServerState :=
  match stepEv s e with
  | some (s1, _) => s1
  | none => s

/-! ### Registry map lemmas -/

theorem mapGet_mapSet_self : ∀ (m : List (String × Room)) (k : String) (v : Room),
    mapGet (mapSet m k v) k = some v
  | [], k, v => by simp [mapSet, mapGet]
  | (k1, v1) :: rest, k, v => by
      by_cases h : k1 = k
      · simp [mapSet, h, mapGet]
      · simp [mapSet, h, mapGet, mapGet_mapSet_self rest k v]

theorem mapGet_mapSet_ne : ∀ (m : List (String × Room)) (k : String) (v : Room) (k2 : String),
    k2 ≠ k → mapGet (mapSet m k v) k2 = mapGet m k2
  | [], k, v, k2, h => by
      simp only [mapSet, mapGet]
      rw [if_neg (fun h2 : k = k2 => h h2.symm)]
  | (k1, v1) :: rest, k, v, k2, h => by
      simp only [mapSet]
      by_cases h1 : k1 = k
      · rw [if_pos h1]
        simp only [mapGet]
        rw [if_neg (fun h2 : k = k2 => h h2.symm),
          if_neg (fun h2 : k1 = k2 => h (h2.symm.trans h1))]
      · rw [if_neg h1]
        simp only [mapGet]
        by_cases h2 : k1 = k2
        · rw [if_pos h2, if_pos h2]
        · rw [if_neg h2, if_neg h2]
          exact mapGet_mapSet_ne rest k v k2 h

theorem mapDel_cons_self (k1 : String) (v1 : Room) (rest : List (String × Room)) (k : String)
    (h : k1 = k) : mapDel ((k1, v1) :: rest) k = mapDel rest k := by
  simp [mapDel, List.filter_cons, h]

theorem mapDel_cons_ne (k1 : String) (v1 : Room) (rest : List (String × Room)) (k : String)
    (h : ¬k1 = k) : mapDel ((k1, v1) :: rest) k = (k1, v1) :: mapDel rest k := by
  simp [mapDel, List.filter_cons, h]

theorem mapGet_mapDel_self : ∀ (m : List (String × Room)) (k : String),
    mapGet (mapDel m k) k = none
  | [], k => rfl
  | (k1, v1) :: rest, k => by
      by_cases h : k1 = k
      · rw [mapDel_cons_self k1 v1 rest k h]
        exact mapGet_mapDel_self rest k
      · rw [mapDel_cons_ne k1 v1 rest k h]
        simp only [mapGet]
        rw [if_neg h]
        exact mapGet_mapDel_self rest k

theorem mapGet_mapDel_ne : ∀ (m : List (String × Room)) (k k2 : String),
    k2 ≠ k → mapGet (mapDel m k) k2 = mapGet m k2
  | [], k, k2, _ => rfl
  | (k1, v1) :: rest, k, k2, h => by
      by_cases h1 : k1 = k
      · rw [mapDel_cons_self k1 v1 rest k h1]
        simp only [mapGet]
        rw [if_neg (fun h2 : k1 = k2 => h (h2.symm.trans h1))]
        exact mapGet_mapDel_ne rest k k2 h
      · rw [mapDel_cons_ne k1 v1 rest k h1]
        simp only [mapGet]
        by_cases h2 : k1 = k2
        · rw [if_pos h2, if_pos h2]
        · rw [if_neg h2, if_neg h2]
          exact mapGet_mapDel_ne rest k k2 h

/-- The key list of the registry. -/
def keys (m : List (String × Room)) : List String :=
  m.map (fun e => e.1)

/-- No two entries of the registry share a code. -/
def nodupKeys (m : List (String × Room)) : Prop :=
  (keys m).Nodup

theorem keys_cons (k1 : String) (v1 : Room) (rest : List (String × Room)) :
    keys ((k1, v1) :: rest) = k1 :: keys rest := rfl

theorem mapGet_eq_none_of_not_mem_keys : ∀ (m : List (String × Room)) (k : String),
    k ∉ keys m → mapGet m k = none
  | [], _, _ => rfl
  | (k1, v1) :: rest, k, h => by
      rw [keys_cons] at h
      have h1 : ¬k1 = k := fun e => h (e ▸ List.mem_cons_self _ _)
      have h2 : k ∉ keys rest := fun e => h (List.mem_cons_of_mem _ e)
      simp only [mapGet]
      rw [if_neg h1]
      exact mapGet_eq_none_of_not_mem_keys rest k h2

theorem mem_keys_of_mapGet_eq_some : ∀ (m : List (String × Room)) (k : String) (v : Room),
    mapGet m k = some v → k ∈ keys m
  | [], k, v, h => by simp [mapGet] at h
  | (k1, v1) :: rest, k, v, h => by
      rw [keys_cons]
      by_cases h1 : k1 = k
      · exact h1 ▸ List.mem_cons_self _ _
      · simp only [mapGet, if_neg h1] at h
        exact List.mem_cons_of_mem _ (mem_keys_of_mapGet_eq_some rest k v h)

theorem keys_mapSet_of_mem : ∀ (m : List (String × Room)) (k : String) (v : Room),
    k ∈ keys m → keys (mapSet m k v) = keys m
  | [], k, _, h => absurd h (List.not_mem_nil k)
  | (k1, v1) :: rest, k, v, h => by
      simp only [mapSet]
      by_cases h1 : k1 = k
      · rw [if_pos h1, keys_cons, keys_cons, h1]
      · rw [if_neg h1, keys_cons, keys_cons]
        have h2 : k ∈ keys rest := by
          rw [keys_cons] at h
          rcases List.mem_cons.mp h with h3 | h3
          · exact absurd h3.symm h1
          · exact h3
        rw [keys_mapSet_of_mem rest k v h2]

theorem keys_mapSet_of_not_mem : ∀ (m : List (String × Room)) (k : String) (v : Room),
    k ∉ keys m → keys (mapSet m k v) = keys m ++ [k]
  | [], _, _, _ => rfl
  | (k1, v1) :: rest, k, v, h => by
      rw [keys_cons] at h
      have h1 : ¬k1 = k := fun e => h (e ▸ List.mem_cons_self _ _)
      have h2 : k ∉ keys rest := fun e => h (List.mem_cons_of_mem _ e)
      simp only [mapSet]
      rw [if_neg h1, keys_cons, keys_cons, keys_mapSet_of_not_mem rest k v h2]
      rfl

theorem nodupKeys_mapSet (m : List (String × Room)) (k : String) (v : Room)
    (h : nodupKeys m) : nodupKeys (mapSet m k v) := by
  by_cases hm : k ∈ keys m
  · unfold nodupKeys
    rw [keys_mapSet_of_mem m k v hm]
    exact h
  · unfold nodupKeys
    rw [keys_mapSet_of_not_mem m k v hm]
    simpa [List.nodup_append] using And.intro h hm

theorem nodupKeys_mapDel (m : List (String × Room)) (k : String)
    (h : nodupKeys m) : nodupKeys (mapDel m k) := by
  unfold nodupKeys keys at *
  exact List.Nodup.sublist (List.Sublist.map (fun e => e.1) (List.filter_sublist m)) h

/-! ### Behaviour of the handlers on the registry keys -/

theorem freshCode_fresh : ∀ (rooms : List (String × Room)) (supply : List String) (code : String),
    freshCode rooms supply = some code → mapGet rooms code = none := by
  intro rooms supply
  induction supply with
  | nil => intro code h; simp [freshCode] at h
  | cons raw rest ih =>
      intro code h
      simp only [freshCode] at h
      by_cases hh : mapHas rooms (generateRoomCode raw) = true
      · rw [if_pos hh] at h
        exact ih code h
      · rw [if_neg hh] at h
        injection h with h1
        subst h1
        unfold mapHas at hh
        exact Option.not_isSome_iff_eq_none.mp hh

theorem handleCreateRoom_eq_some (s : ServerState) (c : ConnId) (supply : List String)
    (s1 : ServerState) (out : List (ConnId × SMsg))
    (h : handleCreateRoom s c supply = some (s1, out)) :
    ∃ code, mapGet s.rooms code = none ∧
      s1 = { rooms := mapSet s.rooms code { host := c, peer := none, users := [c] },
             conns := setConn s.conns c
               { s.conns c with roomCode := some code, role := some "host" } } ∧
      out = [(c, SMsg.roomCreated code)] := by
  unfold handleCreateRoom at h
  split at h
  · cases h
  · next code heq =>
      refine ⟨code, freshCode_fresh s.rooms supply code heq, ?_, ?_⟩
      · injection h with h1
        exact (congrArg Prod.fst h1).symm
      · injection h with h1
        exact (congrArg Prod.snd h1).symm

theorem forwardToPeer_state_eq (s : ServerState) (c : ConnId) (m : RelayMsg) :
    (forwardToPeer s c m).1 = s := by
  unfold forwardToPeer
  repeat' split
  all_goals rfl

theorem pair_eq_fst {α β : Type} {x : α × β} {a : α} {b : β} (h : x = (a, b)) : x.1 = a := by
  rw [h]

theorem pair_eq_snd {α β : Type} {x : α × β} {a : α} {b : β} (h : x = (a, b)) : x.2 = b := by
  rw [h]

theorem nodupKeys_join (s : ServerState) (c : ConnId) (code : String)
    (h : nodupKeys s.rooms) : nodupKeys (handleJoinRoom s c code).1.rooms := by
  unfold handleJoinRoom
  split
  · exact h
  · split
    · exact h
    · exact nodupKeys_mapSet _ _ _ h

theorem nodupKeys_leave (s : ServerState) (c : ConnId)
    (h : nodupKeys s.rooms) : nodupKeys (handleLeaveRoom s c).1.rooms := by
  unfold handleLeaveRoom
  split
  · exact h
  · split
    · exact h
    · split
      · exact nodupKeys_mapDel _ _ h
      · split
        · exact nodupKeys_mapDel _ _ h
        · split
          · exact nodupKeys_mapSet _ _ _ h
          · exact nodupKeys_mapSet _ _ _ h

theorem nodupKeys_handleMessage (s : ServerState) (c : ConnId) (raw : Option InMsg)
    (supply : List String) (s1 : ServerState) (out : List (ConnId × SMsg))
    (h : nodupKeys s.rooms) (hstep : handleMessage s c raw supply = some (s1, out)) :
    nodupKeys s1.rooms := by
  unfold handleMessage at hstep
  split at hstep
  · injection hstep with h1
    injection h1 with h2 h3
    subst h2
    exact h
  · split at hstep
    · obtain ⟨code, _, hs1, _⟩ := handleCreateRoom_eq_some s c supply s1 out hstep
      rw [hs1]
      exact nodupKeys_mapSet _ _ _ h
    · split at hstep
      · injection hstep with h1
        rw [← pair_eq_fst h1]
        exact nodupKeys_join s c _ h
      · split at hstep
        · injection hstep with h1
          rw [← pair_eq_fst h1, forwardToPeer_state_eq]
          exact h
        · split at hstep
          · injection hstep with h1
            rw [← pair_eq_fst h1]
            exact nodupKeys_leave s c h
          · injection hstep with h1
            injection h1 with h2 h3
            subst h2
            exact h

theorem nodupKeys_stepEv (s : ServerState) (e : Event) (s1 : ServerState)
    (out : List (ConnId × SMsg)) (h : nodupKeys s.rooms)
    (hstep : stepEv s e = some (s1, out)) : nodupKeys s1.rooms := by
  cases e with
  | msg c raw supply =>
      simp only [stepEv] at hstep
      by_cases hready : (s.conns c).ready = true
      · rw [if_pos hready] at hstep
        exact nodupKeys_handleMessage s c raw supply s1 out h hstep
      · rw [if_neg hready] at hstep
        all_goals cases hstep
  | disconnect c =>
      simp only [stepEv] at hstep
      by_cases hready : (s.conns c).ready = true
      · rw [if_pos hready] at hstep
        injection hstep with h1
        rw [← pair_eq_fst h1]
        exact nodupKeys_leave _ c h
      · rw [if_neg hready] at hstep
        all_goals cases hstep

theorem Reachable_nodupKeys (s : ServerState) (h : Reachable s) : nodupKeys s.rooms := by
  induction h with
  | init => exact List.nodup_nil
  | step _ hstep ih => exact nodupKeys_stepEv _ _ _ _ ih hstep

/-! ### The single-session-per-connection invariant -/

theorem setConn_self (f : ConnId → Conn) (c : ConnId) (v : Conn) : setConn f c v c = v := by
  simp [setConn]

theorem setConn_other (f : ConnId → Conn) (c : ConnId) (v : Conn) (x : ConnId)
    (h : x ≠ c) : setConn f c v x = f x := by
  simp [setConn, h]

/-- Every reference a room holds (host, attached peer, member-set entry)
points to a connection whose affiliation field points back at this room's
code, and the member set holds nothing besides the host and the attached
peer. -/
def RoomOk (f : ConnId → Conn) (k : String) (r : Room) : Prop :=
  (f r.host).roomCode = some k ∧
  (∀ p, r.peer = some p → (f p).roomCode = some k) ∧
  (∀ u, u ∈ r.users → u = r.host ∨ r.peer = some u)

/-- The inductive invariant: every live room is well-referenced. -/
def RegInv (s : ServerState) : Prop :=
  ∀ k r, mapGet s.rooms k = some r → RoomOk s.conns k r

theorem RoomOk_code_of_ref (f : ConnId → Conn) (k : String) (r : Room) (c : ConnId)
    (hro : RoomOk f k r) (href : r.host = c ∨ r.peer = some c ∨ c ∈ r.users) :
    (f c).roomCode = some k := by
  obtain ⟨hh, hp, hu⟩ := hro
  rcases href with h | h | h
  · rw [← h]
    exact hh
  · exact hp c h
  · rcases hu c h with h1 | h1
    · rw [h1]
      exact hh
    · exact hp c h1

theorem RoomOk_setConn_notref (f : ConnId → Conn) (c : ConnId) (v : Conn) (k : String)
    (r : Room) (hro : RoomOk f k r) (hhost : r.host ≠ c) (hpeer : r.peer ≠ some c) :
    RoomOk (setConn f c v) k r := by
  obtain ⟨hh, hp, hu⟩ := hro
  refine ⟨?_, ?_, hu⟩
  · rw [setConn_other f c v r.host hhost]
    exact hh
  · intro p hpp
    have hpc : p ≠ c := by
      intro e
      exact hpeer (e ▸ hpp)
    rw [setConn_other f c v p hpc]
    exact hp p hpp

theorem RoomOk_setConn_same_code (f : ConnId → Conn) (c : ConnId) (v : Conn) (k : String)
    (r : Room) (hro : RoomOk f k r) (hv : v.roomCode = (f c).roomCode) :
    RoomOk (setConn f c v) k r := by
  obtain ⟨hh, hp, hu⟩ := hro
  have key : ∀ x, ((setConn f c v) x).roomCode = (f x).roomCode := by
    intro x
    by_cases hx : x = c
    · rw [hx, setConn_self, hv]
    · rw [setConn_other f c v x hx]
  refine ⟨?_, fun p hpp => ?_, hu⟩
  · rw [key r.host]
    exact hh
  · rw [key p]
    exact hp p hpp

theorem RoomOk_notref_of_other_code (f : ConnId → Conn) (c : ConnId) (k code : String)
    (r : Room) (hro : RoomOk f k r) (hc : (f c).roomCode = some code) (hk : k ≠ code) :
    r.host ≠ c ∧ r.peer ≠ some c := by
  constructor
  · intro e
    have := RoomOk_code_of_ref f k r c hro (Or.inl e)
    rw [hc] at this
    injection this with h1
    exact hk h1.symm
  · intro e
    have := RoomOk_code_of_ref f k r c hro (Or.inr (Or.inl e))
    rw [hc] at this
    injection this with h1
    exact hk h1.symm

theorem RoomOk_notref_of_unaffiliated (f : ConnId → Conn) (c : ConnId) (k : String)
    (r : Room) (hro : RoomOk f k r) (hc : (f c).roomCode = none) :
    r.host ≠ c ∧ r.peer ≠ some c := by
  constructor
  · intro e
    have := RoomOk_code_of_ref f k r c hro (Or.inl e)
    rw [hc] at this
    all_goals cases this
  · intro e
    have := RoomOk_code_of_ref f k r c hro (Or.inr (Or.inl e))
    rw [hc] at this
    all_goals cases this

theorem mem_insertUser (u c : ConnId) (users : List ConnId)
    (h : u ∈ insertUser c users) : u ∈ users ∨ u = c := by
  unfold insertUser at h
  by_cases hc : c ∈ users
  · rw [if_pos hc] at h
    exact Or.inl h
  · rw [if_neg hc] at h
    rcases List.mem_append.mp h with h1 | h1
    · exact Or.inl h1
    · exact Or.inr (List.mem_singleton.mp h1)

theorem RegInv_create (s : ServerState) (c : ConnId) (supply : List String)
    (s1 : ServerState) (out : List (ConnId × SMsg))
    (hInv : RegInv s) (hfree : (s.conns c).roomCode = none)
    (h : handleCreateRoom s c supply = some (s1, out)) : RegInv s1 := by
  obtain ⟨code, hfresh, hs1, _⟩ := handleCreateRoom_eq_some s c supply s1 out h
  subst hs1
  intro k r hk
  simp only at hk ⊢
  by_cases hkc : k = code
  · subst hkc
    rw [mapGet_mapSet_self] at hk
    injection hk with h1
    subst h1
    refine ⟨?_, ?_, ?_⟩
    · show (setConn s.conns c _ c).roomCode = some k
      rw [setConn_self]
    · intro p hp
      cases hp
    · intro u hu
      left
      simpa using hu
  · rw [mapGet_mapSet_ne _ _ _ _ hkc] at hk
    have hro := hInv k r hk
    obtain ⟨hhost, hpeer⟩ := RoomOk_notref_of_unaffiliated s.conns c k r hro hfree
    exact RoomOk_setConn_notref s.conns c _ k r hro hhost hpeer

/-! ### Branch equations for the handlers -/

theorem handleJoinRoom_notFound (s : ServerState) (c : ConnId) (code : String)
    (h : mapGet s.rooms code = none) :
    handleJoinRoom s c code = (s, [(c, SMsg.errorMsg "Room not found")]) := by
  unfold handleJoinRoom
  split
  · rfl
  · next room hroom =>
      rw [h] at hroom
      all_goals cases hroom

theorem handleJoinRoom_full (s : ServerState) (c : ConnId) (code : String) (room : Room)
    (p : ConnId) (h : mapGet s.rooms code = some room) (hp : room.peer = some p) :
    handleJoinRoom s c code = (s, [(c, SMsg.errorMsg "Room is full")]) := by
  unfold handleJoinRoom
  split
  · next hnone =>
      rw [h] at hnone
      all_goals cases hnone
  · next room2 hroom2 =>
      rw [h] at hroom2
      injection hroom2 with h1
      subst h1
      split
      · rfl
      · next hnone2 =>
          rw [hp] at hnone2
          all_goals cases hnone2

theorem handleJoinRoom_success (s : ServerState) (c : ConnId) (code : String) (room : Room)
    (h : mapGet s.rooms code = some room) (hp : room.peer = none) :
    handleJoinRoom s c code =
      ({ rooms := mapSet s.rooms code
           { room with peer := some c, users := insertUser c room.users },
         conns := setConn s.conns c
           { s.conns c with roomCode := some code, role := some "peer" } },
       (c, SMsg.roomJoined code) ::
         (if (s.conns room.host).ready then [(room.host, SMsg.peerJoined)] else [])) := by
  unfold handleJoinRoom
  split
  · next hnone =>
      rw [h] at hnone
      all_goals cases hnone
  · next room2 hroom2 =>
      rw [h] at hroom2
      injection hroom2 with h1
      subst h1
      split
      · next p hp2 =>
          rw [hp] at hp2
          all_goals cases hp2
      · rfl

theorem handleLeaveRoom_noCode (s : ServerState) (c : ConnId)
    (h : (s.conns c).roomCode = none) : handleLeaveRoom s c = (s, []) := by
  unfold handleLeaveRoom
  split
  · rfl
  · next code hcode =>
      rw [h] at hcode
      all_goals cases hcode

theorem handleLeaveRoom_noRoom (s : ServerState) (c : ConnId) (code : String)
    (hc : (s.conns c).roomCode = some code) (hr : mapGet s.rooms code = none) :
    handleLeaveRoom s c = (s, []) := by
  unfold handleLeaveRoom
  split
  · next hnone =>
      rw [hc] at hnone
  · next code2 hcode2 =>
      rw [hc] at hcode2
      injection hcode2 with h1
      subst h1
      split
      · rfl
      · next room hroom =>
          rw [hr] at hroom
          all_goals cases hroom

theorem handleLeaveRoom_room (s : ServerState) (c : ConnId) (code : String) (room : Room)
    (hc : (s.conns c).roomCode = some code) (hr : mapGet s.rooms code = some room) :
    handleLeaveRoom s c =
      if (removeUser c room).users.length = 0 then
        ({ rooms := mapDel s.rooms code,
           conns := setConn s.conns c (clearAffil (s.conns c)) },
         leaveNotice s c room)
      else if c = room.host then
        ({ rooms := mapDel s.rooms code,
           conns := setConn s.conns c (clearAffil (s.conns c)) },
         leaveNotice s c room ++ hostLeftNotice s (removeUser c room))
      else if (removeUser c room).peer = some c then
        ({ rooms := mapSet s.rooms code { removeUser c room with peer := none },
           conns := setConn s.conns c (clearAffil (s.conns c)) },
         leaveNotice s c room)
      else
        ({ rooms := mapSet s.rooms code (removeUser c room),
           conns := setConn s.conns c (clearAffil (s.conns c)) },
         leaveNotice s c room) := by
  unfold handleLeaveRoom
  split
  · next hnone =>
      rw [hc] at hnone
      all_goals cases hnone
  · next code2 hcode2 =>
      rw [hc] at hcode2
      injection hcode2 with h1
      subst h1
      split
      · next hnone =>
          rw [hr] at hnone
          all_goals cases hnone
      · next room2 hroom2 =>
          rw [hr] at hroom2
          injection hroom2 with h2
          subst h2
          rfl

theorem forwardToPeer_noCode (s : ServerState) (c : ConnId) (m : RelayMsg)
    (h : (s.conns c).roomCode = none) : forwardToPeer s c m = (s, []) := by
  unfold forwardToPeer
  split
  · rfl
  · next code hcode =>
      rw [h] at hcode
      all_goals cases hcode

theorem forwardToPeer_noRoom (s : ServerState) (c : ConnId) (m : RelayMsg) (code : String)
    (hc : (s.conns c).roomCode = some code) (hr : mapGet s.rooms code = none) :
    forwardToPeer s c m = (s, []) := by
  unfold forwardToPeer
  split
  · next hnone =>
      rw [hc] at hnone
  · next code2 hcode2 =>
      rw [hc] at hcode2
      injection hcode2 with h1
      subst h1
      split
      · rfl
      · next room hroom =>
          rw [hr] at hroom
          all_goals cases hroom

theorem forwardToPeer_noTarget (s : ServerState) (c : ConnId) (m : RelayMsg) (code : String)
    (room : Room) (hc : (s.conns c).roomCode = some code)
    (hr : mapGet s.rooms code = some room)
    (ht : (if c = room.host then room.peer else some room.host : Option ConnId) = none) :
    forwardToPeer s c m = (s, []) := by
  unfold forwardToPeer
  split
  · next hnone =>
      rw [hc] at hnone
  · next code2 hcode2 =>
      rw [hc] at hcode2
      injection hcode2 with h1
      subst h1
      split
      · next hnone =>
          rw [hr] at hnone
      · next room2 hroom2 =>
          rw [hr] at hroom2
          injection hroom2 with h2
          subst h2
          split
          · rfl
          · next t htarget =>
              rw [ht] at htarget
              all_goals cases htarget

theorem forwardToPeer_target (s : ServerState) (c : ConnId) (m : RelayMsg) (code : String)
    (room : Room) (t : ConnId) (hc : (s.conns c).roomCode = some code)
    (hr : mapGet s.rooms code = some room)
    (ht : (if c = room.host then room.peer else some room.host : Option ConnId) = some t) :
    forwardToPeer s c m =
      (if (s.conns t).ready then
        (s, [(t, SMsg.relay { m with senderRole := (s.conns c).role })])
      else (s, [])) := by
  unfold forwardToPeer
  split
  · next hnone =>
      rw [hc] at hnone
      all_goals cases hnone
  · next code2 hcode2 =>
      rw [hc] at hcode2
      injection hcode2 with h1
      subst h1
      split
      · next hnone =>
          rw [hr] at hnone
          all_goals cases hnone
      · next room2 hroom2 =>
          rw [hr] at hroom2
          injection hroom2 with h2
          subst h2
          split
          · next hnone =>
              rw [ht] at hnone
              all_goals cases hnone
          · next t2 htarget =>
              rw [ht] at htarget
              injection htarget with h3
              subst h3
              rfl

theorem RegInv_join (s : ServerState) (c : ConnId) (code : String)
    (hInv : RegInv s) (hfree : (s.conns c).roomCode = none) :
    RegInv (handleJoinRoom s c code).1 := by
  cases hroom : mapGet s.rooms code with
  | none =>
      rw [handleJoinRoom_notFound s c code hroom]
      exact hInv
  | some room =>
      cases hnopeer : room.peer with
      | some p =>
          rw [handleJoinRoom_full s c code room p hroom hnopeer]
          exact hInv
      | none =>
          rw [handleJoinRoom_success s c code room hroom hnopeer]
          intro k r hk
          simp only at hk ⊢
          have hroomOk := hInv code room hroom
          have hhostne : room.host ≠ c := by
            intro e
            have h2 := hroomOk.1
            rw [e, hfree] at h2
            all_goals cases h2
          by_cases hkc : k = code
          · subst hkc
            rw [mapGet_mapSet_self] at hk
            injection hk with h1
            subst h1
            refine ⟨?_, ?_, ?_⟩
            · show (setConn s.conns c _ room.host).roomCode = some k
              rw [setConn_other _ _ _ _ hhostne]
              exact hroomOk.1
            · intro p hp
              simp only at hp
              injection hp with h1
              subst h1
              show (setConn s.conns c _ c).roomCode = some k
              rw [setConn_self]
            · intro u hu
              simp only at hu ⊢
              rcases mem_insertUser u c room.users hu with h1 | h1
              · rcases hroomOk.2.2 u h1 with h2 | h2
                · exact Or.inl h2
                · rw [hnopeer] at h2
                  all_goals cases h2
              · exact Or.inr (by rw [h1])
          · rw [mapGet_mapSet_ne _ _ _ _ hkc] at hk
            have hro := hInv k r hk
            obtain ⟨hhost, hpeer⟩ := RoomOk_notref_of_unaffiliated s.conns c k r hro hfree
            exact RoomOk_setConn_notref s.conns c _ k r hro hhost hpeer

theorem RegInv_delBranch (s : ServerState) (c : ConnId) (code : String)
    (hInv : RegInv s) (hcode : (s.conns c).roomCode = some code) :
    RegInv ({ rooms := mapDel s.rooms code,
              conns := setConn s.conns c (clearAffil (s.conns c)) } : ServerState) := by
  intro k r hk
  simp only at hk ⊢
  by_cases hkc : k = code
  · subst hkc
    rw [mapGet_mapDel_self] at hk
    all_goals cases hk
  · rw [mapGet_mapDel_ne _ _ _ hkc] at hk
    have hro := hInv k r hk
    obtain ⟨hh, hp⟩ := RoomOk_notref_of_other_code s.conns c k code r hro hcode hkc
    exact RoomOk_setConn_notref s.conns c _ k r hro hh hp

theorem RegInv_leave (s : ServerState) (c : ConnId) (hInv : RegInv s) :
    RegInv (handleLeaveRoom s c).1 := by
  cases hcode : (s.conns c).roomCode with
  | none =>
      rw [handleLeaveRoom_noCode s c hcode]
      exact hInv
  | some code =>
      cases hroom : mapGet s.rooms code with
      | none =>
          rw [handleLeaveRoom_noRoom s c code hcode hroom]
          exact hInv
      | some room =>
          rw [handleLeaveRoom_room s c code room hcode hroom]
          have hroomOk := hInv code room hroom
          by_cases hempty : (removeUser c room).users.length = 0
          · rw [if_pos hempty]
            exact RegInv_delBranch s c code hInv hcode
          · rw [if_neg hempty]
            by_cases hhost : c = room.host
            · rw [if_pos hhost]
              exact RegInv_delBranch s c code hInv hcode
            · rw [if_neg hhost]
              have hhostne : room.host ≠ c := fun e => hhost e.symm
              by_cases hpeerc : (removeUser c room).peer = some c
              · rw [if_pos hpeerc]
                intro k r hk
                simp only at hk ⊢
                by_cases hkc : k = code
                · subst hkc
                  rw [mapGet_mapSet_self] at hk
                  injection hk with h1
                  subst h1
                  refine ⟨?_, ?_, ?_⟩
                  · show (setConn s.conns c _ room.host).roomCode = some k
                    rw [setConn_other _ _ _ _ hhostne]
                    exact hroomOk.1
                  · intro p hp
                    simp only at hp
                    all_goals cases hp
                  · intro u hu
                    simp only [removeUser, List.mem_filter] at hu ⊢
                    left
                    rcases hroomOk.2.2 u hu.1 with h2 | h2
                    · exact h2
                    · exfalso
                      have h3 : room.peer = some c := hpeerc
                      rw [h3] at h2
                      injection h2 with h4
                      exact (of_decide_eq_true hu.2) h4.symm
                · rw [mapGet_mapSet_ne _ _ _ _ hkc] at hk
                  have hro := hInv k r hk
                  obtain ⟨hh, hp⟩ := RoomOk_notref_of_other_code s.conns c k code r hro hcode hkc
                  exact RoomOk_setConn_notref s.conns c _ k r hro hh hp
              · rw [if_neg hpeerc]
                intro k r hk
                simp only at hk ⊢
                by_cases hkc : k = code
                · subst hkc
                  rw [mapGet_mapSet_self] at hk
                  injection hk with h1
                  subst h1
                  refine ⟨?_, ?_, ?_⟩
                  · show (setConn s.conns c _ room.host).roomCode = some k
                    rw [setConn_other _ _ _ _ hhostne]
                    exact hroomOk.1
                  · intro p hp
                    have hp2 : room.peer = some p := hp
                    have hpc : p ≠ c := by
                      intro e
                      exact hpeerc (by rw [← e]; exact hp)
                    show (setConn s.conns c _ p).roomCode = some k
                    rw [setConn_other _ _ _ _ hpc]
                    exact hroomOk.2.1 p hp2
                  · intro u hu
                    simp only [removeUser, List.mem_filter] at hu ⊢
                    rcases hroomOk.2.2 u hu.1 with h2 | h2
                    · exact Or.inl h2
                    · exact Or.inr h2
                · rw [mapGet_mapSet_ne _ _ _ _ hkc] at hk
                  have hro := hInv k r hk
                  obtain ⟨hh, hp⟩ := RoomOk_notref_of_other_code s.conns c k code r hro hcode hkc
                  exact RoomOk_setConn_notref s.conns c _ k r hro hh hp

theorem RegInv_forward (s : ServerState) (c : ConnId) (m : RelayMsg)
    (hInv : RegInv s) : RegInv (forwardToPeer s c m).1 := by
  rw [forwardToPeer_state_eq]
  exact hInv

theorem RegInv_setReady (s : ServerState) (c : ConnId) (b : Bool) (hInv : RegInv s) :
    RegInv ({ rooms := s.rooms,
              conns := setConn s.conns c { s.conns c with ready := b } } : ServerState) := by
  intro k r hk
  simp only at hk ⊢
  exact RoomOk_setConn_same_code s.conns c _ k r (hInv k r hk) rfl

theorem RegInv_handleMessage (s : ServerState) (c : ConnId) (raw : Option InMsg)
    (supply : List String) (s1 : ServerState) (out : List (ConnId × SMsg))
    (hInv : RegInv s)
    (hlegal : ∀ m : InMsg, raw = some m →
      (m.ty = "create-room" ∨ m.ty = "join-room") → (s.conns c).roomCode = none)
    (hstep : handleMessage s c raw supply = some (s1, out)) : RegInv s1 := by
  cases raw with
  | none =>
      simp only [handleMessage] at hstep
      injection hstep with h1
      injection h1 with h2 h3
      subst h2
      exact hInv
  | some m =>
      simp only [handleMessage] at hstep
      by_cases h1 : m.ty = "create-room"
      · rw [if_pos h1] at hstep
        exact RegInv_create s c supply s1 out hInv (hlegal m rfl (Or.inl h1)) hstep
      · rw [if_neg h1] at hstep
        by_cases h2 : m.ty = "join-room"
        · rw [if_pos h2] at hstep
          injection hstep with h3
          rw [← pair_eq_fst h3]
          exact RegInv_join s c m.roomCode hInv (hlegal m rfl (Or.inr h2))
        · rw [if_neg h2] at hstep
          by_cases h3 : m.ty = "offer" ∨ m.ty = "answer" ∨ m.ty = "ice-candidate"
          · rw [if_pos h3] at hstep
            injection hstep with h4
            rw [← pair_eq_fst h4]
            exact RegInv_forward s c _ hInv
          · rw [if_neg h3] at hstep
            by_cases h4 : m.ty = "leave-room"
            · rw [if_pos h4] at hstep
              injection hstep with h5
              rw [← pair_eq_fst h5]
              exact RegInv_leave s c hInv
            · rw [if_neg h4] at hstep
              injection hstep with h5
              injection h5 with h6 h7
              subst h6
              exact hInv

theorem RegInv_stepEv (s : ServerState) (e : Event) (s1 : ServerState)
    (out : List (ConnId × SMsg)) (hInv : RegInv s) (hlegal : LegalEv s e)
    (hstep : stepEv s e = some (s1, out)) : RegInv s1 := by
  cases e with
  | msg c raw supply =>
      simp only [stepEv] at hstep
      by_cases hready : (s.conns c).ready = true
      · rw [if_pos hready] at hstep
        refine RegInv_handleMessage s c raw supply s1 out hInv ?_ hstep
        intro m hm hty
        subst hm
        exact hlegal hty
      · rw [if_neg hready] at hstep
        cases hstep
  | disconnect c =>
      simp only [stepEv] at hstep
      by_cases hready : (s.conns c).ready = true
      · rw [if_pos hready] at hstep
        injection hstep with h1
        rw [← pair_eq_fst h1]
        exact RegInv_leave _ c (RegInv_setReady s c false hInv)
      · rw [if_neg hready] at hstep
        cases hstep

theorem LReachable_RegInv (s : ServerState) (h : LReachable s) : RegInv s := by
  induction h with
  | init =>
      intro k r hk
      cases hk
  | step _ hlegal hstep ih => exact RegInv_stepEv _ _ _ _ ih hlegal hstep

/-- A room references a connection when it holds it as host, as attached
peer, or as an entry of its member set. -/
def referencedBy (r : Room) (c : ConnId) : Prop :=
  r.host = c ∨ r.peer = some c ∨ c ∈ r.users

/-- No connection is referenced by two distinct live sessions. -/
def atMostOneSession (s : ServerState) : Prop :=
  ∀ k1 k2 r1 r2 c, mapGet s.rooms k1 = some r1 → mapGet s.rooms k2 = some r2 →
    k1 ≠ k2 → referencedBy r1 c → referencedBy r2 c → False

theorem RegInv_atMostOneSession (s : ServerState) (hInv : RegInv s) :
    atMostOneSession s := by
  intro k1 k2 r1 r2 c h1 h2 hne href1 href2
  have e1 := RoomOk_code_of_ref s.conns k1 r1 c (hInv k1 r1 h1) href1
  have e2 := RoomOk_code_of_ref s.conns k2 r2 c (hInv k2 r2 h2) href2
  rw [e1] at e2
  injection e2 with e3
  exact hne e3

/-! ### Notification-block equations -/

theorem leaveNotice_eq (s : ServerState) (c : ConnId) (room : Room) (t : ConnId)
    (ht : (if c = room.host then room.peer else some room.host : Option ConnId) = some t) :
    leaveNotice s c room =
      if (s.conns t).ready then [(t, SMsg.peerLeft ((s.conns t).role))] else [] := by
  unfold leaveNotice
  split
  · next t2 htarget =>
      rw [ht] at htarget
      injection htarget with h1
      subst h1
      rfl
  · next hnone =>
      rw [ht] at hnone
      all_goals cases hnone

theorem hostLeftNotice_eq (s : ServerState) (r : Room) (p : ConnId)
    (hp : r.peer = some p) :
    hostLeftNotice s r = if (s.conns p).ready then [(p, SMsg.hostLeft)] else [] := by
  unfold hostLeftNotice
  split
  · next p2 hp2 =>
      rw [hp] at hp2
      injection hp2 with h1
      subst h1
      rfl
  · next hnone =>
      rw [hp] at hnone
      all_goals cases hnone

/-! ### Concrete scenario states

A host (connection 0) creates a room, a peer (connection 1) joins it with the
canonical code, the host leaves; later a third connection (2) creates a new
room that draws the same random fragment and therefore reuses code "K1". -/

def evCreate0 : Event :=
  Event.msg 0 (some { ty := "create-room", roomCode := "", body := "", senderRole := none }) ["k1"]

def st1 : ServerState := afterEv initState evCreate0

def evJoin1 : Event :=
  Event.msg 1 (some { ty := "join-room", roomCode := "K1", body := "", senderRole := none }) []

def st2 : ServerState := afterEv st1 evJoin1

def evLeave0 : Event :=
  Event.msg 0 (some { ty := "leave-room", roomCode := "", body := "", senderRole := none }) []

def st3 : ServerState := afterEv st2 evLeave0

def evCreate2 : Event :=
  Event.msg 2 (some { ty := "create-room", roomCode := "", body := "", senderRole := none }) ["k1"]

def st4 : ServerState := afterEv st3 evCreate2

/-- A second `create-room` from the already-hosting connection 0. -/
def evCreateAgain : Event :=
  Event.msg 0 (some { ty := "create-room", roomCode := "", body := "", senderRole := none }) ["k2"]

def dblCreate : ServerState := afterEv st1 evCreateAgain

/-- A `create-room` from the fresh connection 1 (used for a legally reached
two-room state). -/
def evCreate1b : Event :=
  Event.msg 1 (some { ty := "create-room", roomCode := "", body := "", senderRole := none }) ["k2"]

def wSt1 : ServerState := afterEv st1 evCreate1b

def evJoin2 : Event :=
  Event.msg 2 (some { ty := "join-room", roomCode := "K1", body := "", senderRole := none }) []

def wSt2 : ServerState := afterEv wSt1 evJoin2

/-! ### Claim theorems -/

/-- C3: a join-room request whose code is not in the registry yields exactly
one error message "Room not found", sent only to the requester, and the whole
server state (registry, sessions, connection affiliations) is returned
unchanged; a join-room request for a session that already has a peer yields
exactly one error message "Room is full", sent only to the requester, with
the attached peer not replaced and the whole server state unchanged. -/
theorem join_failure_no_mutation (s : ServerState) (c : ConnId) (code : String) :
    (mapGet s.rooms code = none →
      handleJoinRoom s c code = (s, [(c, SMsg.errorMsg "Room not found")])) ∧
    (∀ room p, mapGet s.rooms code = some room → room.peer = some p →
      handleJoinRoom s c code = (s, [(c, SMsg.errorMsg "Room is full")])) := by
  constructor
  · intro h
    exact handleJoinRoom_notFound s c code h
  · intro room p h hp
    exact handleJoinRoom_full s c code room p h hp

/-- Witness for C3: joining the absent code "ZZZZZZ" in `st1` fails with
"Room not found"; joining "K1" in `st2`, where connection 1 is already the
peer, fails with "Room is full"; both leave the state untouched. -/
theorem join_failure_no_mutation_witness :
    handleJoinRoom st1 1 "ZZZZZZ" = (st1, [(1, SMsg.errorMsg "Room not found")]) ∧
    handleJoinRoom st2 2 "K1" = (st2, [(2, SMsg.errorMsg "Room is full")]) := by
  constructor
  · exact (join_failure_no_mutation st1 1 "ZZZZZZ").1 rfl
  · exact (join_failure_no_mutation st2 2 "K1").2 { host := 0, peer := some 1, users := [0, 1] }
      1 rfl rfl

/-- C2 counterexample: in `st1` the registry holds the session whose
canonical code is "K1" (produced by uppercasing the random fragment "k1"),
yet a join-room request with the lowercase variant "k1" is answered with
"Room not found" while a join-room request with "K1" succeeds, so codes are
not compared case-insensitively. -/
theorem join_lowercase_variant_fails :
    mapGet st1.rooms "K1" = some { host := 0, peer := none, users := [0] } ∧
    handleJoinRoom st1 1 "k1" = (st1, [(1, SMsg.errorMsg "Room not found")]) ∧
    (handleJoinRoom st1 1 "K1").2 = [(1, SMsg.roomJoined "K1"), (0, SMsg.peerJoined)] :=
  ⟨rfl, rfl, rfl⟩

/-- C2 (amended): session codes are compared by exact string equality, not
case-insensitively: if the registry holds a session under code `k` and `x`
is a case variant of `k` (same uppercasing) with `x ≠ k` and `x` itself not
a registry key, then joining with `x` fails with "Room not found" and no
state change, while joining with `k` itself succeeds when the session has no
peer. -/
theorem join_code_case_sensitive (s : ServerState) (c : ConnId) (x k : String) (r : Room)
    (hk : mapGet s.rooms k = some r) (hvar : upperStr x = k) (hne : x ≠ k)
    (hx : mapGet s.rooms x = none) :
    handleJoinRoom s c x = (s, [(c, SMsg.errorMsg "Room not found")]) ∧
    (r.peer = none → (handleJoinRoom s c k).2 =
      (c, SMsg.roomJoined k) ::
        (if (s.conns r.host).ready then [(r.host, SMsg.peerJoined)] else [])) := by
  constructor
  · exact handleJoinRoom_notFound s c x hx
  · intro hp
    rw [handleJoinRoom_success s c k r hk hp]

/-- Witness for C2 (amended) at `st1` with canonical code "K1" and its
lowercase variant "k1". -/
theorem join_code_case_sensitive_witness :
    handleJoinRoom st1 1 "k1" = (st1, [(1, SMsg.errorMsg "Room not found")]) ∧
    (({ host := 0, peer := none, users := [0] } : Room).peer = none →
      (handleJoinRoom st1 1 "K1").2 =
        (1, SMsg.roomJoined "K1") ::
          (if (st1.conns 0).ready then [(0, SMsg.peerJoined)] else [])) :=
  join_code_case_sensitive st1 1 "k1" "K1" { host := 0, peer := none, users := [0] }
    rfl rfl (by decide) rfl

/-- C1 counterexample: in `st2` the session "K1" has host 0 and live peer 1;
when the host departs, the peer receives TWO notifications — a `peer-left`
first (from the unconditional notify block), then `host-left` — so "exactly
one host-left notification and nothing else, before any other notification"
fails on the code. -/
theorem host_leave_double_notification :
    mapGet st2.rooms "K1" = some { host := 0, peer := some 1, users := [0, 1] } ∧
    (st2.conns 1).ready = true ∧
    (handleLeaveRoom st2 0).2 = [(1, SMsg.peerLeft (some "peer")), (1, SMsg.hostLeft)] ∧
    mapGet (handleLeaveRoom st2 0).1.rooms "K1" = none :=
  ⟨rfl, rfl, rfl, rfl⟩

/-- C1 (amended): when the host of a session departs (explicit leave-room,
or disconnect, which runs the same teardown) while a live peer is attached,
the session is removed from the registry and the peer receives exactly two
notifications from this departure, a `peer-left` (carrying the peer's own
role field) followed by the `host-left`; nothing is sent to anyone else. -/
theorem host_leave_notifications (s : ServerState) (c p : ConnId) (k : String) (r : Room)
    (hc : (s.conns c).roomCode = some k) (hr : mapGet s.rooms k = some r)
    (hh : r.host = c) (hp : r.peer = some p) (hpc : p ≠ c)
    (hready : (s.conns p).ready = true) (hpu : p ∈ r.users) :
    mapGet (handleLeaveRoom s c).1.rooms k = none ∧
    (handleLeaveRoom s c).2 =
      [(p, SMsg.peerLeft ((s.conns p).role)), (p, SMsg.hostLeft)] := by
  rw [handleLeaveRoom_room s c k r hc hr]
  have hmem : p ∈ (removeUser c r).users := by
    simp only [removeUser, List.mem_filter, decide_eq_true_eq]
    exact ⟨hpu, hpc⟩
  have hnonempty : ¬(removeUser c r).users.length = 0 := by
    intro h0
    rw [List.length_eq_zero] at h0
    rw [h0] at hmem
    cases hmem
  rw [if_neg hnonempty, if_pos hh.symm]
  constructor
  · exact mapGet_mapDel_self s.rooms k
  · show leaveNotice s c r ++ hostLeftNotice s (removeUser c r) = _
    rw [leaveNotice_eq s c r p (by rw [if_pos hh.symm]; exact hp),
      hostLeftNotice_eq s (removeUser c r) p hp, if_pos hready, if_pos hready]
    rfl

/-- Witness for C1 (amended): the host of `st2` leaves; the peer gets the
`peer-left` then the `host-left`, and session "K1" is gone. -/
theorem host_leave_notifications_witness :
    mapGet (handleLeaveRoom st2 0).1.rooms "K1" = none ∧
    (handleLeaveRoom st2 0).2 =
      [(1, SMsg.peerLeft ((st2.conns 1).role)), (1, SMsg.hostLeft)] :=
  host_leave_notifications st2 0 1 "K1" { host := 0, peer := some 1, users := [0, 1] }
    rfl rfl rfl rfl (by decide) rfl (by decide)

/-- C4 counterexample: in `st3` (reached after the host of "K1" left while
peer 1 was attached) connection 1 still has `roomCode = "K1"` although the
session is gone; its leave-room returns at the missing-room guard without
clearing the affiliation or the role, so "cleared in every branch for every
connection with non-null sessionCode" fails on the code. -/
theorem stale_leave_keeps_affiliation :
    (st3.conns 1).roomCode = some "K1" ∧
    mapGet st3.rooms "K1" = none ∧
    ((handleLeaveRoom st3 1).1.conns 1).roomCode = some "K1" ∧
    ((handleLeaveRoom st3 1).1.conns 1).role = some "peer" :=
  ⟨rfl, rfl, rfl, rfl⟩

/-- C4 (amended): for every connection whose `sessionCode` refers to a
session actually present in the registry, the leave operation clears both
the affiliation and the role to null, in every branch of the leave logic. -/
theorem leave_clears_affiliation (s : ServerState) (c : ConnId) (k : String) (r : Room)
    (hc : (s.conns c).roomCode = some k) (hr : mapGet s.rooms k = some r) :
    ((handleLeaveRoom s c).1.conns c).roomCode = none ∧
    ((handleLeaveRoom s c).1.conns c).role = none := by
  rw [handleLeaveRoom_room s c k r hc hr]
  have key : (setConn s.conns c (clearAffil (s.conns c)) c).roomCode = none ∧
      (setConn s.conns c (clearAffil (s.conns c)) c).role = none := by
    rw [setConn_self]
    exact ⟨rfl, rfl⟩
  split
  · exact key
  · split
    · exact key
    · split
      · exact key
      · exact key

/-- Witness for C4 (amended): the departing host of `st2` has both fields
cleared. -/
theorem leave_clears_affiliation_witness :
    ((handleLeaveRoom st2 0).1.conns 0).roomCode = none ∧
    ((handleLeaveRoom st2 0).1.conns 0).role = none :=
  leave_clears_affiliation st2 0 "K1" { host := 0, peer := some 1, users := [0, 1] } rfl rfl

/-- C5: when the peer of a session departs while the host remains (the host
is a distinct connection, still in the member set, and open), the session
stays in the registry under the same code with its `peer` field cleared to
null (its member set loses the departing id), and the host receives exactly
one `peer-left` notification (carrying the host's own role field); nothing
else is sent. -/
theorem peer_leave_keeps_session (s : ServerState) (c : ConnId) (k : String) (r : Room)
    (hc : (s.conns c).roomCode = some k) (hr : mapGet s.rooms k = some r)
    (hp : r.peer = some c) (hhost : c ≠ r.host) (hhu : r.host ∈ r.users)
    (hready : (s.conns r.host).ready = true) :
    mapGet (handleLeaveRoom s c).1.rooms k =
      some { host := r.host, peer := none,
             users := r.users.filter (fun u => u ≠ c) } ∧
    (handleLeaveRoom s c).2 = [(r.host, SMsg.peerLeft ((s.conns r.host).role))] := by
  rw [handleLeaveRoom_room s c k r hc hr]
  have hmem : r.host ∈ (removeUser c r).users := by
    simp only [removeUser, List.mem_filter, decide_eq_true_eq]
    exact ⟨hhu, fun e => hhost e.symm⟩
  have hnonempty : ¬(removeUser c r).users.length = 0 := by
    intro h0
    rw [List.length_eq_zero] at h0
    rw [h0] at hmem
    cases hmem
  rw [if_neg hnonempty, if_neg hhost, if_pos (show (removeUser c r).peer = some c from hp)]
  constructor
  · show mapGet (mapSet s.rooms k _) k = _
    rw [mapGet_mapSet_self]
    rfl
  · show leaveNotice s c r = _
    rw [leaveNotice_eq s c r r.host (by rw [if_neg hhost]), if_pos hready]

/-- Witness for C5: peer 1 of `st2` leaves; session "K1" stays with `peer`
cleared and host 0 gets exactly one `peer-left`. -/
theorem peer_leave_keeps_session_witness :
    mapGet (handleLeaveRoom st2 1).1.rooms "K1" =
      some { host := 0, peer := none, users := [0, 1].filter (fun u => u ≠ 1) } ∧
    (handleLeaveRoom st2 1).2 = [(0, SMsg.peerLeft ((st2.conns 0).role))] :=
  peer_leave_keeps_session st2 1 "K1" { host := 0, peer := some 1, users := [0, 1] }
    rfl rfl rfl (by decide) (by decide) rfl

/-- C6: for a relay message (`offer` / `answer` / `ice-candidate`) from a
connection affiliated with a live session: if the sender is the host the
target is the session's peer, if the sender is the attached peer the target
is the host; when the target exists and is open the delivered message is the
inbound one with the single `senderRole` field set to the sender's role and
every other field verbatim, and the state is unchanged; when the target is
absent or not open the message is dropped: no reply to the sender, no send
at all, no state change. -/
theorem relay_routing (s : ServerState) (c : ConnId) (m : RelayMsg) (k : String) (r : Room)
    (hc : (s.conns c).roomCode = some k) (hr : mapGet s.rooms k = some r)
    (hsr : m.senderRole = none) :
    (∀ p, c = r.host → r.peer = some p → (s.conns p).ready = true →
      forwardToPeer s c m =
        (s, [(p, SMsg.relay { ty := m.ty, body := m.body, senderRole := (s.conns c).role })])) ∧
    (r.peer = some c → c ≠ r.host → (s.conns r.host).ready = true →
      forwardToPeer s c m =
        (s, [(r.host, SMsg.relay { ty := m.ty, body := m.body, senderRole := (s.conns c).role })])) ∧
    (c = r.host → r.peer = none → forwardToPeer s c m = (s, [])) ∧
    (∀ t, (if c = r.host then r.peer else some r.host : Option ConnId) = some t →
      (s.conns t).ready = false → forwardToPeer s c m = (s, [])) := by
  refine ⟨?_, ?_, ?_, ?_⟩
  · intro p hh hp hready
    rw [forwardToPeer_target s c m k r p hc hr (by rw [if_pos hh]; exact hp), if_pos hready]
  · intro hp hh hready
    rw [forwardToPeer_target s c m k r r.host hc hr (by rw [if_neg hh]), if_pos hready]
  · intro hh hp
    exact forwardToPeer_noTarget s c m k r hc hr (by rw [if_pos hh]; exact hp)
  · intro t ht hnready
    have hnot : ¬(s.conns t).ready = true := by
      rw [hnready]
      exact Bool.false_ne_true
    rw [forwardToPeer_target s c m k r t hc hr ht, if_neg hnot]

/-- Witness for C6: host 0 of `st2` relays an offer; it is delivered to peer
1 with `senderRole` set to the sender's role and the payload verbatim. -/
theorem relay_routing_witness :
    forwardToPeer st2 0 { ty := "offer", body := "sdp", senderRole := none } =
      (st2, [(1, SMsg.relay { ty := "offer", body := "sdp", senderRole := some "host" })]) :=
  (relay_routing st2 0 { ty := "offer", body := "sdp", senderRole := none } "K1"
    { host := 0, peer := some 1, users := [0, 1] } rfl rfl rfl).1 1 rfl rfl rfl

/-- C7 counterexample: from the initial state, connection 0 sends
`create-room` twice without leaving in between; both events fire (nothing in
the code guards against an already-affiliated creator), and in the resulting
reachable state connection 0 is referenced as host by the two distinct live
sessions "K1" and "K2" — so the at-most-one-session property fails over
unconstrained event sequences. -/
theorem connection_in_two_sessions :
    Reachable dblCreate ∧ ¬atMostOneSession dblCreate := by
  constructor
  · exact Reachable.step
      (Reachable.step Reachable.init
        (show stepEv initState evCreate0 = some (st1, [(0, SMsg.roomCreated "K1")]) from rfl))
      (show stepEv st1 evCreateAgain = some (dblCreate, [(0, SMsg.roomCreated "K2")]) from rfl)
  · intro h
    exact h "K1" "K2" { host := 0, peer := none, users := [0] }
      { host := 0, peer := none, users := [0] } 0 rfl rfl (by decide)
      (Or.inl rfl) (Or.inl rfl)

/-- C7 (amended): in every state reachable from the initial state by event
sequences that follow the spec's per-connection state machine — `create-room`
and `join-room` are only issued by unaffiliated connections (leave, relay and
disconnect are unrestricted) — each connection belongs to at most one
session: no connection is referenced, as host, attached peer, or member-set
entry, by two distinct live sessions of the registry. -/
theorem single_session_per_connection (s : ServerState) (h : LReachable s) :
    atMostOneSession s :=
  RegInv_atMostOneSession s (LReachable_RegInv s h)

/-- Witness for C7 (amended): a legally reached state with two live rooms
("K1" hosted by 0 and joined by 2, "K2" hosted by 1). -/
theorem single_session_per_connection_witness : atMostOneSession wSt2 :=
  single_session_per_connection wSt2
    (LReachable.step
      (LReachable.step
        (LReachable.step LReachable.init
          (show LegalEv initState evCreate0 from fun _ => rfl)
          (show stepEv initState evCreate0 = some (st1, [(0, SMsg.roomCreated "K1")]) from rfl))
        (show LegalEv st1 evCreate1b from fun _ => rfl)
        (show stepEv st1 evCreate1b = some (wSt1, [(1, SMsg.roomCreated "K2")]) from rfl))
      (show LegalEv wSt1 evJoin2 from fun _ => rfl)
      (show stepEv wSt1 evJoin2 =
        some (wSt2, [(2, SMsg.roomJoined "K1"), (0, SMsg.peerJoined)]) from rfl))

/-- C8: in every reachable state no two live sessions of the registry share
a code, and create-room inserts only after drawing a code that is not
currently present in the registry (the retry loop never overwrites an
existing session). -/
theorem session_codes_unique :
    (∀ s, Reachable s → nodupKeys s.rooms) ∧
    (∀ s c supply s1 out, handleCreateRoom s c supply = some (s1, out) →
      ∃ code, mapGet s.rooms code = none ∧
        s1.rooms = mapSet s.rooms code { host := c, peer := none, users := [c] }) := by
  constructor
  · intro s h
    exact Reachable_nodupKeys s h
  · intro s c supply s1 out h
    obtain ⟨code, hfresh, hs1, _⟩ := handleCreateRoom_eq_some s c supply s1 out h
    refine ⟨code, hfresh, ?_⟩
    rw [hs1]

/-- Witness for C8: the two-room state `dblCreate` has duplicate-free codes,
and the first create from the initial state inserted a fresh code. -/
theorem session_codes_unique_witness :
    nodupKeys dblCreate.rooms ∧
    (∃ code, mapGet initState.rooms code = none ∧
      st1.rooms = mapSet initState.rooms code { host := 0, peer := none, users := [0] }) := by
  constructor
  · exact session_codes_unique.1 dblCreate
      (Reachable.step
        (Reachable.step Reachable.init
          (show stepEv initState evCreate0 = some (st1, [(0, SMsg.roomCreated "K1")]) from rfl))
        (show stepEv st1 evCreateAgain = some (dblCreate, [(0, SMsg.roomCreated "K2")]) from rfl))
  · exact session_codes_unique.2 initState 0 ["k1"] st1 [(0, SMsg.roomCreated "K1")]
      (show handleCreateRoom initState 0 ["k1"] =
        some (st1, [(0, SMsg.roomCreated "K1")]) from rfl)

/-- C9: an unparseable inbound payload (`JSON.parse` throws, the exception is
caught) and a message with an unrecognized type tag are both dropped: the
whole server state is returned unchanged (no registry, session, or connection
mutation, and the connection is not terminated) and no message is sent to
anyone, so processing of later messages continues from the same state. -/
theorem garbage_message_dropped (s : ServerState) (c : ConnId) (supply : List String) :
    handleMessage s c none supply = some (s, []) ∧
    (∀ m : InMsg, m.ty ≠ "create-room" → m.ty ≠ "join-room" → m.ty ≠ "offer" →
      m.ty ≠ "answer" → m.ty ≠ "ice-candidate" → m.ty ≠ "leave-room" →
      handleMessage s c (some m) supply = some (s, [])) := by
  constructor
  · rfl
  · intro m h1 h2 h3 h4 h5 h6
    have h7 : ¬(m.ty = "offer" ∨ m.ty = "answer" ∨ m.ty = "ice-candidate") := by
      rintro (h | h | h)
      exacts [h3 h, h4 h, h5 h]
    simp only [handleMessage]
    rw [if_neg h1, if_neg h2, if_neg h7, if_neg h6]

/-- Witness for C9: a malformed payload and a "bogus"-typed message arriving
at `st2` both leave the state unchanged and send nothing. -/
theorem garbage_message_dropped_witness :
    handleMessage st2 3 none [] = some (st2, []) ∧
    handleMessage st2 0
      (some { ty := "bogus", roomCode := "", body := "", senderRole := none }) [] =
      some (st2, []) := by
  constructor
  · exact (garbage_message_dropped st2 3 []).1
  · exact (garbage_message_dropped st2 0 []).2
      { ty := "bogus", roomCode := "", body := "", senderRole := none }
      (by decide) (by decide) (by decide) (by decide) (by decide) (by decide)

/-- C10: when a session is torn down because its host departs, the remaining
peer connection's `roomCode` and `role` fields are left untouched (its whole
connection record is unchanged) while the session's code disappears from the
registry; a subsequent leave from that peer hits the missing-room guard and
returns with no state change at all (in particular without clearing those
fields); and a subsequent relay message from that peer is routed through
whatever session holds that code at that time: in any state where the peer
still carries the code and some session (for example a later one that reused
the code) is registered under it, the relay goes to that session's other
member. -/
theorem stale_affiliation_after_teardown (s : ServerState) (c p : ConnId) (k : String)
    (r : Room) (hc : (s.conns c).roomCode = some k) (hr : mapGet s.rooms k = some r)
    (hh : r.host = c) (hp : r.peer = some p) (hpc : p ≠ c)
    (hpk : (s.conns p).roomCode = some k) :
    ((handleLeaveRoom s c).1.conns p = s.conns p) ∧
    (mapGet (handleLeaveRoom s c).1.rooms k = none) ∧
    (handleLeaveRoom (handleLeaveRoom s c).1 p = ((handleLeaveRoom s c).1, [])) ∧
    (∀ (s2 : ServerState) (r2 : Room) (m : RelayMsg) (t : ConnId),
      (s2.conns p).roomCode = some k → mapGet s2.rooms k = some r2 →
      (if p = r2.host then r2.peer else some r2.host : Option ConnId) = some t →
      (s2.conns t).ready = true →
      forwardToPeer s2 p m = (s2, [(t, SMsg.relay { m with senderRole := (s2.conns p).role })])) := by
  have h1 : setConn s.conns c (clearAffil (s.conns c)) p = s.conns p :=
    setConn_other _ _ _ _ hpc
  have h2 : mapGet (mapDel s.rooms k) k = none := mapGet_mapDel_self s.rooms k
  have h3 : handleLeaveRoom
      ({ rooms := mapDel s.rooms k,
         conns := setConn s.conns c (clearAffil (s.conns c)) } : ServerState) p =
      (({ rooms := mapDel s.rooms k,
          conns := setConn s.conns c (clearAffil (s.conns c)) } : ServerState), []) := by
    refine handleLeaveRoom_noRoom _ p k ?_ h2
    show (setConn s.conns c (clearAffil (s.conns c)) p).roomCode = some k
    rw [h1]
    exact hpk
  have h4 : ∀ (s2 : ServerState) (r2 : Room) (m : RelayMsg) (t : ConnId),
      (s2.conns p).roomCode = some k → mapGet s2.rooms k = some r2 →
      (if p = r2.host then r2.peer else some r2.host : Option ConnId) = some t →
      (s2.conns t).ready = true →
      forwardToPeer s2 p m =
        (s2, [(t, SMsg.relay { m with senderRole := (s2.conns p).role })]) := by
    intro s2 r2 m t hk2 hr2 ht hready
    rw [forwardToPeer_target s2 p m k r2 t hk2 hr2 ht, if_pos hready]
  rw [handleLeaveRoom_room s c k r hc hr]
  by_cases hempty : (removeUser c r).users.length = 0
  · rw [if_pos hempty]
    exact ⟨h1, h2, h3, h4⟩
  · rw [if_neg hempty, if_pos hh.symm]
    exact ⟨h1, h2, h3, h4⟩

/-- Witness for C10: after the "K1" teardown (`st3`) connection 2 creates a
new session that draws the same fragment and reuses code "K1" (`st4`); a
relay from the stale peer 1 is then delivered to the new session's host 2,
annotated with peer 1's stale role. -/
theorem stale_affiliation_after_teardown_witness :
    forwardToPeer st4 1 { ty := "offer", body := "x", senderRole := none } =
      (st4, [(2, SMsg.relay { ty := "offer", body := "x", senderRole := some "peer" })]) :=
  (stale_affiliation_after_teardown st2 0 1 "K1"
      { host := 0, peer := some 1, users := [0, 1] }
      rfl rfl rfl rfl (by decide) rfl).2.2.2
    st4 { host := 2, peer := none, users := [2] }
    { ty := "offer", body := "x", senderRole := none } 2 rfl rfl rfl rfl
